import Mathlib

/- Formal model of the ingestion pipeline of the janus-baseline repository:
   the DEX string-pool decoder (dex_parser.py), the download/cache retry engine
   (apk_analysis_core.py), the SQLite connection pool (db_connection.py), the
   stale-session sweeper (concurrency_manager.py), the cancellation registry
   (ui_logger.py) and the cached-archive validation pass (apk_analysis_core.py).
   Byte buffers are modelled as List Nat (each element a byte value); machine
   integers are plain Nat, matching Python unbounded integers.  A Python
   IndexError or struct.error caused by reading past the end of a buffer is
   modelled as the Option value none. -/

namespace DexParser

/- Model of struct.unpack applied to data[off:off+4] with format <I
   (little-endian unsigned 32-bit).  Python slicing truncates, and
   struct.unpack raises struct.error when the slice holds fewer than 4 bytes;
   that failure is none here. -/
def readU32le (data : List Nat) (off : Nat) : Option Nat :=
  if h : off + 4 ≤ data.length then
    some (data.get ⟨off, by omega⟩ +
          256 * data.get ⟨off + 1, by omega⟩ +
          65536 * data.get ⟨off + 2, by omega⟩ +
          16777216 * data.get ⟨off + 3, by omega⟩)
  else
    none

/- The while-loop body of DEXParser.read_uleb128, recursing on the suffix of
   the buffer that starts at the current offset (data[offset] is the head of
   that suffix).  Each iteration reads one byte, ors its low 7 bits shifted
   into place, and stops when the continuation bit (0x80) is clear, returning
   the value together with the offset just past the last byte consumed.
   Exhausting the suffix models the IndexError the Python code raises when it
   indexes data[offset] with offset = len(data). -/
def readUlebFrom : List Nat → Nat → Nat → Nat → Option (Nat × Nat)
  | [], _, _, _ => none
  | b :: rest, offset, result, shift =>
    let result := result ||| ((b &&& 0x7f) <<< shift)
    if b &&& 0x80 = 0 then some (result, offset + 1)
    else readUlebFrom rest (offset + 1) result (shift + 7)

/- DEXParser.read_uleb128: decode an unsigned LEB128 value at the given
   offset, returning (value, offset after the varint). -/
def read_uleb128 (data : List Nat) (offset : Nat) : Option (Nat × Nat) :=
  readUlebFrom (data.drop offset) offset 0 0

structure Header where
  string_ids_size : Nat
  string_ids_off : Nat
deriving DecidableEq

/- DEXParser.parse_header: header_data = data[:112]; string_ids_size is the
   little-endian u32 at bytes 56..60 of that slice, string_ids_off the one at
   bytes 60..64. -/
def parse_header (data : List Nat) : Option Header := do
  let sz ← readU32le (data.take 112) 56
  let off ← readU32le (data.take 112) 60
  pure ⟨sz, off⟩

/- The loop of DEXParser.parse_string_ids: n iterations, reading one u32 per
   iteration, starting at the given offset and advancing it by 4 each time. -/
def parse_string_ids_loop (data : List Nat) (offset : Nat) : Nat → Option (List Nat)
  | 0 => some []
  | n + 1 => do
    let sdo ← readU32le data offset
    let rest ← parse_string_ids_loop data (offset + 4) n
    pure (sdo :: rest)

/- DEXParser.parse_string_ids: string_ids_size offsets read from the table at
   string_ids_off. -/
def parse_string_ids (data : List Nat) (hdr : Header) : Option (List Nat) :=
  parse_string_ids_loop data hdr.string_ids_off hdr.string_ids_size

/- The loop of DEXParser.parse_strings: for each string data offset, decode
   the length varint, then take that many bytes starting right after it
   (data[offset:offset+size]; Python slicing truncates silently, modelled by
   drop and take).  The decoded text is represented by its underlying byte
   slice; the utf-8 errors=replace decoding step is a deterministic function
   of those bytes and is not modelled separately. -/
def parse_strings_loop (data : List Nat) : List Nat → Option (List (List Nat))
  | [] => some []
  | sdo :: rest => do
    let p ← read_uleb128 data sdo
    let restS ← parse_strings_loop data rest
    pure (((data.drop p.2).take p.1) :: restS)

def parse_strings (data : List Nat) (ids : List Nat) : Option (List (List Nat)) :=
  parse_strings_loop data ids

/- DEXParser.parse: parse_header, then parse_string_ids, then parse_strings,
   returning all three results. -/
def parse (data : List Nat) : Option (Header × List Nat × List (List Nat)) := do
  let hdr ← parse_header data
  let ids ← parse_string_ids data hdr
  let strs ← parse_strings data ids
  pure (hdr, ids, strs)

/- Reference definition, not from the source: the standard unsigned LEB128
   encoding (base-128 groups, least significant first, continuation bit 0x80
   on every byte except the last).  The first argument is fuel that makes the
   recursion structural; encodeULEB128 supplies fuel n, which always suffices
   because the encoded value shrinks by a factor of 128 per byte. -/
def encodeULEB128Aux : Nat → Nat → List Nat
  | 0, n => [n % 128]
  | fuel + 1, n => if n < 128 then [n] else (n % 128 + 128) :: encodeULEB128Aux fuel (n / 128)

def encodeULEB128 (n : Nat) : List Nat :=
  encodeULEB128Aux n n

/- A concrete 72-byte synthetic image: zeroed header except string_ids_size =
   1 at byte 56 and string_ids_off = 64 at byte 60; one table entry at byte 64
   pointing at byte 68; there a length varint 3 followed by the bytes of
   "abc". -/
def sampleImage : List Nat :=
  List.replicate 56 0 ++ [1, 0, 0, 0] ++ [64, 0, 0, 0] ++ [68, 0, 0, 0] ++ [3] ++ [97, 98, 99]

end DexParser

namespace ApkCore

/- One HTTP response from the AndroZoo endpoint: the status code and the
   number of bytes that streaming the body to disk produces. -/
structure Resp where
  status : Nat
  bodyLen : Nat

/- Observable download state threaded through download_apk: how many HTTP
   requests have been issued, how many times time.sleep(200) ran, and the
   size of the file currently at apk_path (none when no file exists). -/
structure DLState where
  requests : Nat
  sleeps : Nat
  file : Option Nat
deriving DecidableEq

/- The inner while-loop of download_apk, recursing on the number of attempts
   still available in the current cycle (remaining = max_retries - attempts,
   so the loop guard attempts < max_retries is remaining > 0 and the
   post-increment sleep guard attempts >= max_retries is remaining - 1 = 0).
   Each iteration issues one GET (the k-th request gets response resp k); on
   status 200 the body is written to apk_path before the size check, and a
   size above 1000 returns the path (Bool result true); otherwise - undersized
   body or non-200 status - the attempt counter advances and, when it reaches
   max_retries, time.sleep(200) runs before the loop guard fails. -/
def dlAttempts (resp : Nat → Resp) : Nat → DLState → DLState × Bool
  | 0, s => (s, false)
  | remaining + 1, s =>
    let r := resp s.requests
    let s1 : DLState := { s with requests := s.requests + 1 }
    let s2 : DLState := if r.status = 200 then { s1 with file := some r.bodyLen } else s1
    if r.status = 200 ∧ 1000 < r.bodyLen then (s2, true)
    else
      let s3 : DLState := if remaining = 0 then { s2 with sleeps := s2.sleeps + 1 } else s2
      dlAttempts resp remaining s3

/- The outer for-cycle loop of download_apk: each cycle restarts the attempt
   counter at 0 (remaining = max_retries) and stops early when a cycle
   returned the path. -/
def dlCycles (resp : Nat → Resp) (maxRetries : Nat) : Nat → DLState → DLState × Bool
  | 0, s => (s, false)
  | cycles + 1, s =>
    match dlAttempts resp maxRetries s with
    | (s1, true) => (s1, true)
    | (s1, false) => dlCycles resp maxRetries cycles s1

/- download_apk: file0 is the file currently cached at
   universal_cache_dir/sha256.apk (check_apk_in_cache is its isSome); a cache
   hit returns the path at once with no request.  Otherwise the retry cycles
   run.  The Bool result is true when the function returns apk_path and false
   when it returns None (DownloadExhausted). -/
def download_apk (file0 : Option Nat) (resp : Nat → Resp) (maxRetries cycles : Nat) :
    DLState × Bool :=
  match file0 with
  | some _ => ({ requests := 0, sleeps := 0, file := file0 }, true)
  | none => dlCycles resp maxRetries cycles { requests := 0, sleeps := 0, file := none }

/- A source that always answers 503 with a 10-byte body. -/
def resp503 : Nat → Resp := fun _ => ⟨503, 10⟩

/- A source that always answers 200 with a 10-byte (undersized) body. -/
def resp200small : Nat → Resp := fun _ => ⟨200, 10⟩

end ApkCore

/- Python dict lookup (d.get(k)) over an association list whose entries are
   in insertion order; a dict never holds two entries with the same key. -/
def lookupKey {β : Type} (l : List (Nat × β)) (k : Nat) : Option β :=
  match l with
  | [] => none
  | (t, c) :: rest => if t = k then some c else lookupKey rest k

/- Python dict deletion (del d[k]): removes the entry with key k. -/
def eraseKey {β : Type} (l : List (Nat × β)) (k : Nat) : List (Nat × β) :=
  match l with
  | [] => []
  | (t, c) :: rest => if t = k then rest else (t, c) :: eraseKey rest k

/- Python str.endswith, via the character sequences of the two strings. -/
def endswith (s suffix : String) : Bool := suffix.toList.isSuffixOf s.toList

namespace DbPool

/- Result of get_connection: a connection handle, or the raised pool
   exhausted exception. -/
inductive PoolResult where
  | ok (conn : Nat)
  | poolExhausted
deriving DecidableEq

/- SQLiteConnectionPool state: max_connections, the free list _connections
   (Python appends and pops at the end of the list, a stack; the Lean list
   head is that end), the _in_use dict keyed by thread ident, and a counter
   supplying fresh connection handles for sqlite3.connect. -/
structure Pool where
  cap : Nat
  connections : List Nat
  in_use : List (Nat × Nat)
  next : Nat
deriving DecidableEq

/- SQLiteConnectionPool.get_connection for thread tid: if the thread already
   holds a connection return it; else pop a free connection if any; else
   create a new one when len(_in_use) < max_connections; else raise the pool
   exhausted exception (Except.error). -/
def get_connection (p : Pool) (tid : Nat) : PoolResult × Pool :=
  match lookupKey p.in_use tid with
  | some conn => (.ok conn, p)
  | none =>
    match p.connections with
    | conn :: rest =>
      (.ok conn, { p with connections := rest, in_use := (tid, conn) :: p.in_use })
    | [] =>
      if p.in_use.length < p.cap then
        (.ok p.next, { p with in_use := (tid, p.next) :: p.in_use, next := p.next + 1 })
      else
        (.poolExhausted, p)

/- SQLiteConnectionPool.release_connection: when the conn argument is None it
   is replaced by the calling thread's in-use connection; then, if the thread
   holds a connection, the conn value is appended to the free list and the
   thread's reservation removed, else nothing happens. -/
def release_connection (p : Pool) (tid : Nat) (conn0 : Option Nat) : Pool :=
  let conn :=
    match conn0 with
    | none => lookupKey p.in_use tid
    | some c => some c
  match lookupKey p.in_use tid with
  | some _ =>
    { p with
      connections := (match conn with | some c => c :: p.connections | none => p.connections),
      in_use := eraseKey p.in_use tid }
  | none => p

/- Pool states reachable from a freshly initialised pool (empty free list,
   empty in-use dict) by any sequence of get_connection and
   release_connection calls. -/
inductive Reach (cap : Nat) : Pool → Prop where
  | init : Reach cap ⟨cap, [], [], 0⟩
  | acquire {p : Pool} (tid : Nat) : Reach cap p → Reach cap (get_connection p tid).2
  | release {p : Pool} (tid : Nat) (conn0 : Option Nat) :
      Reach cap p → Reach cap (release_connection p tid conn0)

end DbPool

namespace UiLog

/- The _process_registry dict, as a map from session id to the registered
   worker identity (threading thread ident), none when no entry exists. -/
abbrev Registry : Type := Nat → Option Nat

/- should_cancel: returns False for a missing session id argument, False when
   no identity is registered for the session, and otherwise compares the
   registered identity with the identity executing the check (the current
   thread), returning True exactly when they differ. -/
def should_cancel (registry : Registry) (session_id : Option Nat) (current : Nat) : Bool :=
  match session_id with
  | none => false
  | some sid =>
    match registry sid with
    | none => false
    | some registered => decide (registered ≠ current)

/- cancel_process: when the session has a registry entry, delete it and
   return True, else return False. -/
def cancel_process (registry : Registry) (sid : Nat) : Registry × Bool :=
  match registry sid with
  | some _ => (fun s => if s = sid then none else registry s, true)
  | none => (registry, false)

/- A registry holding one assignment: worker 5 owns session 0. -/
def sampleRegistry : Registry := fun s => if s = 0 then some 5 else none

end UiLog

namespace Concurrency

/- SESSION_TIMEOUT from concurrency_manager.py, in seconds. -/
def SESSION_TIMEOUT : Int := 1800

/- The first loop of clean_stale_sessions: the session ids whose age at
   current_time exceeds SESSION_TIMEOUT. -/
def stale_ids (now : Int) (sessions : List (Nat × Int)) : List Nat :=
  (sessions.filter (fun sd => decide (SESSION_TIMEOUT < now - sd.2))).map Prod.fst

/- clean_stale_sessions: collect the stale session ids, then delete each of
   them from the active_sessions dict (an entry is (session_id, start_time);
   the remaining metadata of a session never changes here). -/
def clean_stale_sessions (now : Int) (sessions : List (Nat × Int)) : List (Nat × Int) :=
  (stale_ids now sessions).foldl (fun acc sid => eraseKey acc sid) sessions

end Concurrency

namespace Validate

/- Outcome of zipfile.ZipFile(path) followed by testzip() on one cached
   artifact: valid when the archive opens and every member checksum matches;
   badZipFile when opening or testing raises zipfile.BadZipFile (structural
   corruption such as a bad central directory record); badMember when the
   archive opens but testzip detects a member whose checksum fails - per the
   zipfile documentation testzip then RETURNS the first bad member name
   rather than raising. -/
inductive ZipResult where
  | valid
  | badZipFile
  | badMember
deriving DecidableEq

/- validate_and_clean_apks over the listing of universal_cache_dir: each
   entry is a file name with the zip outcome its bytes produce.  Result: the
   files remaining in the cache directory and the names moved to trash_dir.
   Only names ending in .apk are examined; a BadZipFile exception moves the
   file; testzip returning a bad member name is ignored by the source (its
   return value is discarded), so such a file stays. -/
def validate_and_clean_apks (files : List (String × ZipResult)) :
    List (String × ZipResult) × List String :=
  files.foldl
    (fun acc f =>
      if endswith f.1 ".apk" ∧ f.2 = ZipResult.badZipFile then (acc.1, acc.2 ++ [f.1])
      else (acc.1 ++ [f], acc.2))
    ([], [])

end Validate

namespace DexParser

/- A varint whose continuation bit never clears consumes the whole suffix and
   then attempts one more read. -/
theorem readUlebFrom_none (l : List Nat) (h : ∀ b ∈ l, b &&& 128 ≠ 0) :
    ∀ offset result shift, readUlebFrom l offset result shift = none := by
  induction l with
  | nil => intro offset result shift; rfl
  | cons b rest ih =>
    intro offset result shift
    have hb : b &&& 128 ≠ 0 := h b (List.mem_cons_self b rest)
    simp only [readUlebFrom, if_neg hb]
    exact ih (fun x hx => h x (List.mem_cons_of_mem b hx)) _ _ _

/- The parse_string_ids loop reads exactly the u32 values sitting at the
   consecutive table slots. -/
theorem parse_string_ids_loop_eq (data : List Nat) :
    ∀ (n : Nat) (off : Nat) (g : Nat → Nat),
      (∀ i, i < n → readU32le data (off + 4 * i) = some (g i)) →
      parse_string_ids_loop data off n = some ((List.range n).map g) := by
  intro n
  induction n with
  | zero => intro off g _; rfl
  | succ n ih =>
    intro off g h
    have h0 : readU32le data off = some (g 0) := by
      have := h 0 (Nat.succ_pos n)
      simpa using this
    have hrest : parse_string_ids_loop data (off + 4) n =
        some ((List.range n).map (fun i => g (i + 1))) := by
      apply ih
      intro i hi
      have := h (i + 1) (Nat.succ_lt_succ hi)
      have harith : off + 4 * (i + 1) = off + 4 + 4 * i := by omega
      rwa [harith] at this
    simp only [parse_string_ids_loop, h0, hrest, Option.bind_some, Option.some_bind]
    simp [List.range_succ_eq_map, List.map_map, Function.comp, Nat.succ_eq_add_one]

/- The parse_strings loop produces, in order, the byte slice that each
   successfully decoded length prefix selects. -/
theorem parse_strings_loop_eq (data : List Nat) :
    ∀ (ids : List Nat) (F : Nat → Nat × Nat),
      (∀ s ∈ ids, read_uleb128 data s = some (F s)) →
      parse_strings_loop data ids =
        some (ids.map (fun s => (data.drop (F s).2).take (F s).1)) := by
  intro ids
  induction ids with
  | nil => intro F _; rfl
  | cons a rest ih =>
    intro F h
    have ha : read_uleb128 data a = some (F a) := h a (List.mem_cons_self a rest)
    have hrest := ih F (fun x hx => h x (List.mem_cons_of_mem a hx))
    simp [parse_strings_loop, ha, hrest]

/-- Claim C1: for every well-formed image buffer whose header declares
stringTableSize = N, whose N table offsets parse, whose length prefixes
decode and whose string records lie inside the buffer, DEXParser.parse
returns exactly N decoded strings, in string-table order, the i-th being the
record bytes selected by its declared length (byte-count length semantics,
the policy the source implements). -/
theorem decode_returns_table_in_order (data : List Nat) (N tOff : Nat)
    (sdo sz soff : Nat → Nat)
    (hN : readU32le (data.take 112) 56 = some N)
    (hT : readU32le (data.take 112) 60 = some tOff)
    (hIds : ∀ i, i < N → readU32le data (tOff + 4 * i) = some (sdo i))
    (hStr : ∀ i, i < N → read_uleb128 data (sdo i) = some (sz i, soff i))
    (hIn : ∀ i, i < N → soff i + sz i ≤ data.length) :
    parse data = some (⟨N, tOff⟩, (List.range N).map sdo,
      (List.range N).map (fun i => (data.drop (soff i)).take (sz i))) ∧
    ((List.range N).map (fun i => (data.drop (soff i)).take (sz i))).length = N ∧
    (∀ i, i < N → ((data.drop (soff i)).take (sz i)).length = sz i) := by
  have hhdr : parse_header data = some ⟨N, tOff⟩ := by
    simp [parse_header, hN, hT]
  have hids : parse_string_ids data ⟨N, tOff⟩ = some ((List.range N).map sdo) :=
    parse_string_ids_loop_eq data N tOff sdo hIds
  have hF : ∀ s ∈ (List.range N).map sdo,
      read_uleb128 data s = some ((read_uleb128 data s).getD (0, 0)) := by
    intro s hs
    rcases List.mem_map.mp hs with ⟨i, hi, rfl⟩
    rw [hStr i (List.mem_range.mp hi)]
    rfl
  have hstrs : parse_strings data ((List.range N).map sdo) =
      some ((List.range N).map (fun i => (data.drop (soff i)).take (sz i))) := by
    have := parse_strings_loop_eq data ((List.range N).map sdo)
      (fun s => (read_uleb128 data s).getD (0, 0)) hF
    rw [parse_strings, this, List.map_map]
    congr 1
    apply List.map_congr_left
    intro i hi
    have hi2 := List.mem_range.mp hi
    simp [Function.comp, hStr i hi2]
  refine ⟨?_, ?_, ?_⟩
  · simp [parse, hhdr, hids, hstrs]
  · simp
  · intro i hi
    have := hIn i hi
    simp [List.length_take, List.length_drop]
    omega

/-- Claim C1 witness: the concrete 72-byte single-entry image decodes to its
one expected string. -/
theorem decode_returns_table_in_order_witness :
    parse sampleImage = some (⟨1, 64⟩, [68], [[97, 98, 99]]) := by
  have h := decode_returns_table_in_order sampleImage 1 64
    (fun _ => 68) (fun _ => 3) (fun _ => 69)
    (by decide) (by decide) (by decide) (by decide) (by decide)
  rw [h.1]
  decide

/-- Claim C2: when the continuation bit is set on every byte the varint
decode can reach - in particular on the last available byte of the buffer -
DEXParser.read_uleb128 runs off the end of the buffer and raises IndexError
(modelled as none).  The source has no FormatError path and no bounds check,
so the claimed behaviour (fail with FormatError, never read past the end) is
exactly what the code does not do; the specification itself flags this as a
required correction. -/
theorem uleb_truncated_overruns_buffer (data : List Nat) (offset : Nat)
    (h : ∀ b ∈ data.drop offset, b &&& 128 ≠ 0) :
    read_uleb128 data offset = none :=
  readUlebFrom_none (data.drop offset) h offset 0 0

/-- Claim C2 witness: a one-byte buffer holding 0x80 makes the decode read
past the end. -/
theorem uleb_truncated_overruns_buffer_witness :
    read_uleb128 [128] 0 = none :=
  uleb_truncated_overruns_buffer [128] 0 (by decide)

/-- Claim C9: the ULEB128 decode is a lossless round trip against the
standard base-128 little-endian-group encoding at the boundary values 0,
127, 128, 16384 and 2^28 - 1, returning the original value and advancing the
offset by exactly the encoding length. -/
theorem uleb_roundtrip_boundary_values :
    read_uleb128 (encodeULEB128 0) 0 = some (0, (encodeULEB128 0).length) ∧
    read_uleb128 (encodeULEB128 127) 0 = some (127, (encodeULEB128 127).length) ∧
    read_uleb128 (encodeULEB128 128) 0 = some (128, (encodeULEB128 128).length) ∧
    read_uleb128 (encodeULEB128 16384) 0 = some (16384, (encodeULEB128 16384).length) ∧
    read_uleb128 (encodeULEB128 268435455) 0 =
      some (268435455, (encodeULEB128 268435455).length) := by
  decide

end DexParser

namespace ApkCoreLemmas

open ApkCore

/- When every response fails the success test (non-200 status, or a body not
   exceeding 1000 bytes), a cycle performs exactly its remaining attempts,
   sleeps once as the attempt counter reaches max_retries (whenever at least
   one attempt was available), and does not return the path. -/
theorem dlAttempts_fail (resp : Nat → Resp)
    (hf : ∀ k, ¬((resp k).status = 200 ∧ 1000 < (resp k).bodyLen)) :
    ∀ rem s, (dlAttempts resp rem s).2 = false ∧
      (dlAttempts resp rem s).1.requests = s.requests + rem ∧
      (dlAttempts resp rem s).1.sleeps = s.sleeps + (if 0 < rem then 1 else 0) := by
  intro rem
  induction rem with
  | zero => intro s; simp [dlAttempts]
  | succ n ih =>
    intro s
    simp only [dlAttempts, if_neg (hf s.requests)]
    by_cases h200 : (resp s.requests).status = 200 <;>
      rcases Nat.eq_zero_or_pos n with hn | hn <;>
      subst_eqs <;>
      simp_all [dlAttempts, Nat.pos_iff_ne_zero] <;>
      omega

/- Under an always-failing source, running all cycles performs maxRetries
   requests per cycle, sleeps once per cycle when attempts exist, and ends
   without returning the path. -/
theorem dlCycles_fail (resp : Nat → Resp) (m : Nat)
    (hf : ∀ k, ¬((resp k).status = 200 ∧ 1000 < (resp k).bodyLen)) :
    ∀ c s, (dlCycles resp m c s).2 = false ∧
      (dlCycles resp m c s).1.requests = s.requests + m * c ∧
      (dlCycles resp m c s).1.sleeps = s.sleeps + (if 0 < m then c else 0) := by
  intro c
  induction c with
  | zero => intro s; simp [dlCycles]
  | succ n ih =>
    intro s
    obtain ⟨h2, hreq, hsl⟩ := dlAttempts_fail resp hf m s
    rcases hp : dlAttempts resp m s with ⟨s1, b⟩
    rw [hp] at h2 hreq hsl
    subst h2
    obtain ⟨ih2, ihreq, ihsl⟩ := ih s1
    simp only [dlCycles, hp]
    refine ⟨ih2, ?_, ?_⟩
    · rw [ihreq, hreq, Nat.mul_succ]; omega
    · rw [ihsl, hsl]
      by_cases hm : 0 < m
      · simp [hm]
        omega
      · simp [hm]

/- Under a source that always answers 200 with an undersized body, any cycle
   that performs at least one attempt leaves some streamed body written at
   the final path. -/
theorem dlAttempts_writes_file (resp : Nat → Resp)
    (h200 : ∀ k, (resp k).status = 200) (hsm : ∀ k, (resp k).bodyLen ≤ 1000) :
    ∀ rem s, 0 < rem → ∃ j, (dlAttempts resp rem s).1.file = some ((resp j).bodyLen) := by
  intro rem
  induction rem with
  | zero => intro s h; omega
  | succ n ih =>
    intro s _
    have hfail : ¬((resp s.requests).status = 200 ∧ 1000 < (resp s.requests).bodyLen) := by
      have := hsm s.requests
      omega
    simp only [dlAttempts, if_neg hfail, if_pos (h200 s.requests)]
    rcases Nat.eq_zero_or_pos n with hn | hn
    · subst hn
      exact ⟨s.requests, by simp [dlAttempts]⟩
    · have hn0 : ¬(n = 0) := by omega
      simp only [if_neg hn0]
      exact ih _ hn

theorem dlCycles_writes_file (resp : Nat → Resp) (m : Nat)
    (h200 : ∀ k, (resp k).status = 200) (hsm : ∀ k, (resp k).bodyLen ≤ 1000) :
    ∀ c s, 0 < m → 0 < c →
      ∃ j, (dlCycles resp m c s).1.file = some ((resp j).bodyLen) := by
  intro c
  induction c with
  | zero => intro s _ h; omega
  | succ n ih =>
    intro s hm _
    have hf : ∀ k, ¬((resp k).status = 200 ∧ 1000 < (resp k).bodyLen) := by
      intro k; have := hsm k; omega
    obtain ⟨h2, -, -⟩ := dlAttempts_fail resp hf m s
    rcases hp : dlAttempts resp m s with ⟨s1, b⟩
    rw [hp] at h2
    subst h2
    simp only [dlCycles, hp]
    rcases Nat.eq_zero_or_pos n with hn | hn
    · subst hn
      obtain ⟨j, hj⟩ := dlAttempts_writes_file resp h200 hsm m s hm
      rw [hp] at hj
      exact ⟨j, by simpa [dlCycles] using hj⟩
    · exact ih s1 hm hn

/- A cycle returns the path only after writing a streamed body to it. -/
theorem dlAttempts_success_file (resp : Nat → Resp) :
    ∀ rem s, (dlAttempts resp rem s).2 = true → (dlAttempts resp rem s).1.file.isSome := by
  intro rem
  induction rem with
  | zero => intro s h; simp [dlAttempts] at h
  | succ n ih =>
    intro s
    simp only [dlAttempts]
    by_cases hg : (resp s.requests).status = 200 ∧ 1000 < (resp s.requests).bodyLen
    · simp [hg]
    · simp only [if_neg hg]
      intro h
      exact ih _ h

theorem dlCycles_success_file (resp : Nat → Resp) (m : Nat) :
    ∀ c s, (dlCycles resp m c s).2 = true → (dlCycles resp m c s).1.file.isSome := by
  intro c
  induction c with
  | zero => intro s h; simp [dlCycles] at h
  | succ n ih =>
    intro s
    rcases hp : dlAttempts resp m s with ⟨s1, b⟩
    rcases b with _ | _
    · simp only [dlCycles, hp]
      exact ih s1
    · simp only [dlCycles, hp]
      intro _
      have := dlAttempts_success_file resp m s
      rw [hp] at this
      exact this rfl

/- A cache hit returns the path at once with no request and no sleep. -/
theorem download_apk_cached (file0 : Option Nat) (resp : Nat → Resp) (m c : Nat)
    (h : file0.isSome = true) :
    download_apk file0 resp m c = ({ requests := 0, sleeps := 0, file := file0 }, true) := by
  rcases file0 with _ | v
  · simp at h
  · rfl

/- Whenever download_apk returns the path, a file exists at that path. -/
theorem download_apk_success_file (file0 : Option Nat) (resp : Nat → Resp) (m c : Nat) :
    (download_apk file0 resp m c).2 = true → (download_apk file0 resp m c).1.file.isSome := by
  rcases file0 with _ | v
  · exact dlCycles_success_file resp m c _
  · intro _; rfl

end ApkCoreLemmas

namespace ApkCore

open ApkCoreLemmas

/-- Claim C3 counterexample: with maxAttemptsPerCycle = 1 and cycles = 1
against an always-failing source, the code issues 1 request and returns
DownloadExhausted as the claim states, but performs the 200-second backoff
sleep once - after the final (and only) cycle - because the sleep guard sits
inside the attempt loop and fires whenever the attempt counter reaches
max_retries, with no further-cycles-remain test.  The claim predicts zero
sleeps here. -/
theorem download_sleep_after_final_cycle :
    (download_apk none resp503 1 1).1.requests = 1 ∧
    (download_apk none resp503 1 1).2 = false ∧
    (download_apk none resp503 1 1).1.sleeps = 1 ∧
    ¬(download_apk none resp503 1 1).1.sleeps = 0 := by
  decide

/-- Claim C3 amended: when no cached file exists and every response is
non-200 or has a body of at most 1000 bytes, download_apk with
maxAttemptsPerCycle = m and cycles = c issues exactly m * c requests and
returns DownloadExhausted; the fixed backoff sleep is performed after every
cycle whose attempts are exhausted, including the final cycle - c sleeps in
total whenever m is positive. -/
theorem download_exhausts_all_attempts (resp : Nat → Resp) (m c : Nat)
    (hf : ∀ k, ¬((resp k).status = 200 ∧ 1000 < (resp k).bodyLen)) :
    (download_apk none resp m c).2 = false ∧
    (download_apk none resp m c).1.requests = m * c ∧
    (download_apk none resp m c).1.sleeps = (if 0 < m then c else 0) := by
  obtain ⟨h2, hreq, hsl⟩ := dlCycles_fail resp m hf c { requests := 0, sleeps := 0, file := none }
  exact ⟨h2, by simpa using hreq, by simpa using hsl⟩

/-- Claim C3 witness: a 10-byte-body source with 3 attempts per cycle and 2
cycles gives 6 requests, DownloadExhausted, and one sleep per cycle. -/
theorem download_exhausts_all_attempts_witness :
    (download_apk none resp503 3 2).2 = false ∧
    (download_apk none resp503 3 2).1.requests = 6 ∧
    (download_apk none resp503 3 2).1.sleeps = 2 := by
  have h := download_exhausts_all_attempts resp503 3 2
    (by intro k; show ¬(503 = 200 ∧ 1000 < 10); decide)
  exact ⟨h.1, h.2.1, by simpa using h.2.2⟩

/-- Claim C4: when a file already sits at destinationDir/contentHash.apk,
download_apk returns that path at once with zero requests and zero sleeps
and without touching the file; and after any call that returned the path, a
second call for the same contentHash finds the file and performs zero
network requests. -/
theorem download_cache_hit_skips_network (file0 : Option Nat)
    (resp resp2 : Nat → Resp) (m c m2 c2 : Nat) :
    (file0.isSome = true →
      download_apk file0 resp m c = ({ requests := 0, sleeps := 0, file := file0 }, true)) ∧
    ((download_apk file0 resp m c).2 = true →
      download_apk (download_apk file0 resp m c).1.file resp2 m2 c2 =
        ({ requests := 0, sleeps := 0, file := (download_apk file0 resp m c).1.file }, true)) := by
  constructor
  · intro h
    exact download_apk_cached file0 resp m c h
  · intro h
    exact download_apk_cached _ resp2 m2 c2 (download_apk_success_file file0 resp m c h)

/-- Claim C4 witness: with a 5000-byte cached file, both the first and a
second fetch return the path with zero requests. -/
theorem download_cache_hit_skips_network_witness :
    download_apk (some 5000) resp503 1 1 =
      ({ requests := 0, sleeps := 0, file := some 5000 }, true) ∧
    download_apk (download_apk (some 5000) resp503 1 1).1.file resp503 1 1 =
      ({ requests := 0, sleeps := 0, file := (download_apk (some 5000) resp503 1 1).1.file },
        true) :=
  ⟨(download_cache_hit_skips_network (some 5000) resp503 resp503 1 1 1 1).1 rfl,
   (download_cache_hit_skips_network (some 5000) resp503 resp503 1 1 1 1).2 (by decide)⟩

/-- Claim C10: when every response is an HTTP 200 whose body is at most 1000
bytes, the body is streamed straight to the final cache path before the size
check, so after download_apk returns DownloadExhausted an undersized file
remains at the path, and a subsequent call for the same contentHash returns
that path as a cache hit with zero network requests. -/
theorem download_undersized_body_poisons_cache (resp resp2 : Nat → Resp)
    (m c m2 c2 : Nat) (hm : 0 < m) (hc : 0 < c)
    (h200 : ∀ k, (resp k).status = 200) (hsm : ∀ k, (resp k).bodyLen ≤ 1000) :
    (download_apk none resp m c).2 = false ∧
    (∃ sz, (download_apk none resp m c).1.file = some sz ∧ sz ≤ 1000) ∧
    download_apk (download_apk none resp m c).1.file resp2 m2 c2 =
      ({ requests := 0, sleeps := 0, file := (download_apk none resp m c).1.file }, true) := by
  have hf : ∀ k, ¬((resp k).status = 200 ∧ 1000 < (resp k).bodyLen) := by
    intro k; have := hsm k; omega
  obtain ⟨h2, -, -⟩ :=
    dlCycles_fail resp m hf c { requests := 0, sleeps := 0, file := none }
  obtain ⟨j, hj⟩ :=
    dlCycles_writes_file resp m h200 hsm c { requests := 0, sleeps := 0, file := none } hm hc
  refine ⟨h2, ⟨(resp j).bodyLen, hj, hsm j⟩, ?_⟩
  exact download_apk_cached _ resp2 m2 c2 (by simp [download_apk, hj])

/-- Claim C10 witness: an always-200 10-byte source with one attempt and one
cycle leaves a 10-byte file at the cache path and the second call is a cache
hit with zero requests. -/
theorem download_undersized_body_poisons_cache_witness :
    (download_apk none resp200small 1 1).2 = false ∧
    (∃ sz, (download_apk none resp200small 1 1).1.file = some sz ∧ sz ≤ 1000) ∧
    download_apk (download_apk none resp200small 1 1).1.file resp503 1 1 =
      ({ requests := 0, sleeps := 0,
         file := (download_apk none resp200small 1 1).1.file }, true) :=
  download_undersized_body_poisons_cache resp200small resp503 1 1 1 1
    (by decide) (by decide) (fun _ => rfl) (by intro k; show 10 ≤ 1000; decide)

end ApkCore

/- Deleting a present key from an association list shortens it by one. -/
theorem eraseKey_length_of_lookup {β : Type} (l : List (Nat × β)) (k : Nat) :
    ∀ c, lookupKey l k = some c → (eraseKey l k).length + 1 = l.length := by
  induction l with
  | nil => intro c h; simp [lookupKey] at h
  | cons a rest ih =>
    intro c h
    by_cases hk : a.1 = k
    · simp [eraseKey, hk]
    · simp only [lookupKey, if_neg hk] at h
      simp only [eraseKey, if_neg hk, List.length_cons]
      rw [ih c h]

namespace DbPool

/- Every reachable pool state keeps its configured capacity and holds at
   most cap connections in total (outstanding plus free). -/
theorem reach_total_le_cap {cap : Nat} {p : Pool} (h : Reach cap p) :
    p.cap = cap ∧ p.in_use.length + p.connections.length ≤ cap := by
  induction h with
  | init => simp
  | @acquire p tid hp ih =>
    obtain ⟨hcap, hle⟩ := ih
    unfold get_connection
    rcases hl : lookupKey p.in_use tid with _ | conn
    · rcases hc : p.connections with _ | ⟨c0, rest⟩
      · by_cases hlt : p.in_use.length < p.cap
        · simp only [if_pos hlt]
          refine ⟨hcap, ?_⟩
          simp only [List.length_cons, List.length_nil] at hle ⊢
          omega
        · simp only [if_neg hlt]
          exact ⟨hcap, hle⟩
      · constructor
        · exact hcap
        · simp only [List.length_cons]
          rw [hc] at hle
          simp only [List.length_cons] at hle
          omega
    · exact ⟨hcap, hle⟩
  | @release p tid conn0 hp ih =>
    obtain ⟨hcap, hle⟩ := ih
    unfold release_connection
    rcases hl : lookupKey p.in_use tid with _ | conn
    · exact ⟨hcap, hle⟩
    · have herase := eraseKey_length_of_lookup p.in_use tid conn hl
      rcases conn0 with _ | c0
      · simp only [hl]
        constructor
        · exact hcap
        · simp only [List.length_cons]
          omega
      · simp only
        constructor
        · exact hcap
        · simp only [List.length_cons]
          omega

end DbPool

/-- Claim C5: in every reachable Resource Pool state the number of
outstanding connections never exceeds the configured capacity; acquiring
with an identity that already holds a connection returns that same
connection and leaves the pool - capacity consumption and free list -
unchanged; and acquiring with a new identity when the free list is empty and
outstanding connections equal capacity fails immediately with the pool
exhausted exception, without any state change (no blocking, no queuing). -/
theorem pool_capacity_reuse_and_fail_fast :
    (∀ cap p, DbPool.Reach cap p → p.in_use.length ≤ cap) ∧
    (∀ (p : DbPool.Pool) (tid conn : Nat), lookupKey p.in_use tid = some conn →
      DbPool.get_connection p tid = (.ok conn, p)) ∧
    (∀ (p : DbPool.Pool) (tid : Nat), lookupKey p.in_use tid = none →
      p.connections = [] → p.in_use.length = p.cap →
      DbPool.get_connection p tid = (.poolExhausted, p)) := by
  refine ⟨?_, ?_, ?_⟩
  · intro cap p h
    have := DbPool.reach_total_le_cap h
    omega
  · intro p tid conn h
    unfold DbPool.get_connection
    rw [h]
  · intro p tid h hfree hlen
    unfold DbPool.get_connection
    rw [h, hfree]
    simp [hlen]

/-- Claim C5 witness: the initial capacity-1 pool satisfies the bound; a
pool whose identity 3 holds connection 5 returns that connection unchanged;
and at capacity with an empty free list identity 4 is rejected. -/
theorem pool_capacity_reuse_and_fail_fast_witness :
    (({ cap := 1, connections := [], in_use := [], next := 0 } : DbPool.Pool).in_use.length ≤ 1) ∧
    DbPool.get_connection ⟨1, [], [(3, 5)], 6⟩ 3 = (.ok 5, ⟨1, [], [(3, 5)], 6⟩) ∧
    DbPool.get_connection ⟨1, [], [(3, 5)], 6⟩ 4 = (.poolExhausted, ⟨1, [], [(3, 5)], 6⟩) :=
  ⟨pool_capacity_reuse_and_fail_fast.1 1 _ DbPool.Reach.init,
   pool_capacity_reuse_and_fail_fast.2.1 ⟨1, [], [(3, 5)], 6⟩ 3 5 (by decide),
   pool_capacity_reuse_and_fail_fast.2.2 ⟨1, [], [(3, 5)], 6⟩ 4 (by decide) rfl (by decide)⟩

/-- Claim C6: should_cancel returns false when no identity is registered for
the session or when the asking identity equals the registered one, and
returns true exactly when a different identity is registered; and after
cancel_process removes the assignment, should_cancel returns false for every
asking identity, so cancellation via removal never stops a worker that keeps
polling. -/
theorem cancellation_identity_semantics (reg : UiLog.Registry) (sid w : Nat) :
    (reg sid = none → UiLog.should_cancel reg (some sid) w = false) ∧
    (reg sid = some w → UiLog.should_cancel reg (some sid) w = false) ∧
    (UiLog.should_cancel reg (some sid) w = true ↔ ∃ v, reg sid = some v ∧ v ≠ w) ∧
    (∀ u, UiLog.should_cancel (UiLog.cancel_process reg sid).1 (some sid) u = false) := by
  refine ⟨?_, ?_, ?_, ?_⟩
  · intro h
    simp [UiLog.should_cancel, h]
  · intro h
    simp [UiLog.should_cancel, h]
  · rcases h : reg sid with _ | v
    · simp [UiLog.should_cancel, h]
    · simp [UiLog.should_cancel, h]
  · intro u
    rcases h : reg sid with _ | v
    · simp [UiLog.cancel_process, h, UiLog.should_cancel]
    · simp [UiLog.cancel_process, h, UiLog.should_cancel]

/-- Claim C6 witness: in a registry where worker 5 owns session 0, the owner
is not cancelled; after cancel_process removes session 0, a worker with
identity 7 polling should_cancel is still told to continue. -/
theorem cancellation_identity_semantics_witness :
    UiLog.should_cancel UiLog.sampleRegistry (some 0) 5 = false ∧
    UiLog.should_cancel (UiLog.cancel_process UiLog.sampleRegistry 0).1 (some 0) 7 = false :=
  ⟨(cancellation_identity_semantics UiLog.sampleRegistry 0 5).2.1 rfl,
   (cancellation_identity_semantics UiLog.sampleRegistry 0 7).2.2.2 7⟩

/- Membership in an association list survives a key deletion. -/
theorem mem_of_mem_eraseKey {β : Type} {l : List (Nat × β)} {k : Nat} {e : Nat × β} :
    e ∈ eraseKey l k → e ∈ l := by
  induction l with
  | nil => intro h; simp [eraseKey] at h
  | cons a rest ih =>
    by_cases hk : a.1 = k
    · intro h
      rw [eraseKey, if_pos hk] at h
      exact List.mem_cons_of_mem a h
    · intro h
      rw [eraseKey, if_neg hk] at h
      rcases List.mem_cons.mp h with h | h
      · exact h ▸ List.mem_cons_self a rest
      · exact List.mem_cons_of_mem a (ih h)

/- With distinct keys, deleting key k removes exactly the entries keyed k. -/
theorem mem_eraseKey_iff {β : Type} {l : List (Nat × β)} {k : Nat} {e : Nat × β}
    (hnd : (l.map Prod.fst).Nodup) :
    e ∈ eraseKey l k ↔ e ∈ l ∧ e.1 ≠ k := by
  induction l with
  | nil => simp [eraseKey]
  | cons a rest ih =>
    simp only [List.map_cons, List.nodup_cons] at hnd
    by_cases hk : a.1 = k
    · rw [eraseKey, if_pos hk]
      constructor
      · intro he
        refine ⟨List.mem_cons_of_mem a he, fun hek => hnd.1 ?_⟩
        rw [← hk] at hek
        rw [← hek]
        exact List.mem_map_of_mem Prod.fst he
      · rintro ⟨he, hek⟩
        rcases List.mem_cons.mp he with h | h
        · exact absurd (h ▸ hk) hek
        · exact h
    · rw [eraseKey, if_neg hk]
      constructor
      · intro he
        rcases List.mem_cons.mp he with h | h
        · exact ⟨h ▸ List.mem_cons_self a rest, h ▸ hk⟩
        · have := (ih hnd.2).mp h
          exact ⟨List.mem_cons_of_mem a this.1, this.2⟩
      · rintro ⟨he, hek⟩
        rcases List.mem_cons.mp he with h | h
        · exact h ▸ List.mem_cons_self a (eraseKey rest k)
        · exact List.mem_cons_of_mem a ((ih hnd.2).mpr ⟨h, hek⟩)

/- Key deletion preserves key distinctness. -/
theorem keys_nodup_eraseKey {β : Type} {l : List (Nat × β)} {k : Nat}
    (hnd : (l.map Prod.fst).Nodup) :
    ((eraseKey l k).map Prod.fst).Nodup := by
  induction l with
  | nil => simp [eraseKey]
  | cons a rest ih =>
    simp only [List.map_cons, List.nodup_cons] at hnd
    by_cases hk : a.1 = k
    · rw [eraseKey, if_pos hk]
      exact hnd.2
    · rw [eraseKey, if_neg hk]
      simp only [List.map_cons, List.nodup_cons]
      refine ⟨fun hmem => ?_, ih hnd.2⟩
      rcases List.mem_map.mp hmem with ⟨x, hx, hxa⟩
      exact hnd.1 (hxa ▸ List.mem_map_of_mem Prod.fst (mem_of_mem_eraseKey hx))

/- Folding key deletions over a list of keys removes exactly the entries
   whose key occurs in that list. -/
theorem mem_foldl_eraseKey {β : Type} {e : Nat × β} :
    ∀ (ks : List Nat) (l : List (Nat × β)), (l.map Prod.fst).Nodup →
      (e ∈ ks.foldl (fun acc sid => eraseKey acc sid) l ↔ e ∈ l ∧ e.1 ∉ ks) := by
  intro ks
  induction ks with
  | nil => intro l _; simp
  | cons k ks ih =>
    intro l hnd
    rw [List.foldl_cons, ih (eraseKey l k) (keys_nodup_eraseKey hnd),
      mem_eraseKey_iff hnd]
    simp only [List.mem_cons]
    constructor
    · rintro ⟨⟨he, hek⟩, hks⟩
      exact ⟨he, fun h => h.elim hek hks⟩
    · rintro ⟨he, hek⟩
      exact ⟨⟨he, fun h => hek (Or.inl h)⟩, fun h => hek (Or.inr h)⟩

/- With distinct keys, two entries of the list sharing a key are the same
   entry. -/
theorem entry_eq_of_key_eq {β : Type} {l : List (Nat × β)} {e x : Nat × β}
    (hnd : (l.map Prod.fst).Nodup) (he : e ∈ l) (hx : x ∈ l) (hk : x.1 = e.1) : x = e := by
  induction l with
  | nil => simp at he
  | cons a rest ih =>
    simp only [List.map_cons, List.nodup_cons] at hnd
    rcases List.mem_cons.mp he with h1 | h1 <;> rcases List.mem_cons.mp hx with h2 | h2
    · rw [h1, h2]
    · subst h1
      exact absurd (hk ▸ List.mem_map_of_mem Prod.fst h2) hnd.1
    · subst h2
      exact absurd (hk ▸ List.mem_map_of_mem Prod.fst h1) (hk ▸ hnd.1)
    · exact ih hnd.2 h1 h2

/-- Claim C8: clean_stale_sessions removes exactly the registered sessions
whose age at the current time exceeds SESSION_TIMEOUT = 1800 seconds and
retains - unmodified - every session whose age is within the timeout,
whatever the state of the session's work. -/
theorem sweep_removes_exactly_stale (now : Int) (sessions : List (Nat × Int))
    (hnd : (sessions.map Prod.fst).Nodup) (e : Nat × Int) :
    e ∈ Concurrency.clean_stale_sessions now sessions ↔
      e ∈ sessions ∧ now - e.2 ≤ Concurrency.SESSION_TIMEOUT := by
  unfold Concurrency.clean_stale_sessions
  rw [mem_foldl_eraseKey _ _ hnd]
  have hiff : e ∈ sessions →
      (e.1 ∈ Concurrency.stale_ids now sessions ↔
        Concurrency.SESSION_TIMEOUT < now - e.2) := by
    intro he
    unfold Concurrency.stale_ids
    simp only [List.mem_map, List.mem_filter]
    constructor
    · rintro ⟨x, ⟨hx, hpx⟩, hxe⟩
      have hxeq : x = e := entry_eq_of_key_eq hnd he hx hxe
      subst hxeq
      simpa using hpx
    · intro hp
      exact ⟨e, ⟨he, by simpa using hp⟩, rfl⟩
  constructor
  · rintro ⟨he, hns⟩
    refine ⟨he, ?_⟩
    by_contra hgt
    exact hns ((hiff he).mpr (by omega))
  · rintro ⟨he, hle⟩
    refine ⟨he, fun hmem => ?_⟩
    have := (hiff he).mp hmem
    omega

/-- Claim C8 witness: at time 2000, the session started at 0 (age 2000) is
swept and the session started at 500 (age 1500) is retained. -/
theorem sweep_removes_exactly_stale_witness :
    ((2, 500) : Nat × Int) ∈ Concurrency.clean_stale_sessions 2000 [(1, 0), (2, 500)] ∧
    ((1, 0) : Nat × Int) ∉ Concurrency.clean_stale_sessions 2000 [(1, 0), (2, 500)] :=
  ⟨(sweep_removes_exactly_stale 2000 [(1, 0), (2, 500)] (by decide) (2, 500)).mpr
      ⟨by decide, by decide⟩,
   fun h =>
     absurd ((sweep_removes_exactly_stale 2000 [(1, 0), (2, 500)] (by decide) (1, 0)).mp h).2
       (by decide)⟩

/- Unrolling the validation fold: whatever has accumulated already, the
   remaining files split into the kept ones and the moved ones. -/
theorem validate_foldl_split (files : List (String × Validate.ZipResult)) :
    ∀ acc : List (String × Validate.ZipResult) × List String,
      files.foldl
        (fun acc f =>
          if endswith f.1 ".apk" ∧ f.2 = Validate.ZipResult.badZipFile then
            (acc.1, acc.2 ++ [f.1])
          else (acc.1 ++ [f], acc.2)) acc =
      (acc.1 ++ files.filter
          (fun f => !(endswith f.1 ".apk" && decide (f.2 = Validate.ZipResult.badZipFile))),
       acc.2 ++ (files.filter
          (fun f => endswith f.1 ".apk" && decide (f.2 = Validate.ZipResult.badZipFile))).map
          Prod.fst) := by
  induction files with
  | nil => intro acc; simp
  | cons f rest ih =>
    intro acc
    rw [List.foldl_cons]
    by_cases h1 : endswith f.1 ".apk" = true
    · by_cases h2 : f.2 = Validate.ZipResult.badZipFile
      · rw [if_pos ⟨h1, h2⟩, ih]
        rw [List.filter_cons, List.filter_cons]
        simp [h1, h2, List.append_assoc]
      · rw [if_neg (fun hp => h2 hp.2), ih]
        rw [List.filter_cons, List.filter_cons]
        simp [h1, h2, List.append_assoc]
    · have h1f : endswith f.1 ".apk" = false := by
        rcases Bool.eq_false_or_eq_true (endswith f.1 ".apk") with h | h
        · exact absurd h h1
        · exact h
      rw [if_neg (fun hp => h1 hp.1), ih]
      rw [List.filter_cons, List.filter_cons]
      simp [h1f, List.append_assoc]

/-- Claim C7 counterexample: an artifact whose archive opens but whose
testzip scan finds a checksum-mismatched member (zipfile.ZipFile.testzip
returns the bad member name instead of raising, and the source discards
that return value) is left in the cache directory and not relocated to
quarantine, although the claim counts a checksum mismatch among the
ArchiveError cases that must be relocated. -/
theorem checksum_mismatch_member_not_quarantined :
    Validate.validate_and_clean_apks [("a.apk", Validate.ZipResult.badMember)] =
      ([("a.apk", Validate.ZipResult.badMember)], []) ∧
    "a.apk" ∉ (Validate.validate_and_clean_apks [("a.apk", Validate.ZipResult.badMember)]).2 := by
  decide

/-- Claim C7 amended: the validation pass relocates into quarantine exactly
those .apk artifacts whose container raises BadZipFile when opened or
scanned (structural corruption such as a bad directory record), keeping
their directory order; every other file - cleanly validating artifacts,
artifacts whose scan merely reports a checksum-mismatched member without
raising, and non-.apk files - is left in the cache untouched. -/
theorem validate_moves_exactly_raising_archives
    (files : List (String × Validate.ZipResult)) :
    Validate.validate_and_clean_apks files =
      (files.filter
        (fun f => !(endswith f.1 ".apk" && decide (f.2 = Validate.ZipResult.badZipFile))),
       (files.filter
        (fun f => endswith f.1 ".apk" && decide (f.2 = Validate.ZipResult.badZipFile))).map
        Prod.fst) := by
  unfold Validate.validate_and_clean_apks
  rw [validate_foldl_split]
  simp
